import Mathlib

/-!
Verification of the chrono-utils calendar arithmetic library.

The library defines three operations on calendar timestamps:
* `add_months` in the crate root (`lib.rs`), which sets the year and month directly;
* `add_months` in `month_calc.rs`, which additionally clamps the day of month via
  `with_closest_day`;
* `years_since` in `year_calc.rs`, the signed whole-year difference of two timestamps.

A timestamp is modelled by its calendar fields (signed year, month 1-12, day
1-31) together with an opaque payload standing for the time-of-day and zone
data that the arithmetic must preserve unchanged.  The year is modelled as an
unbounded integer, following the data model ("integer year, signed, unbounded
in principle"); the underlying representation's year range limit is a
collaborator concern outside the core's contract.  The chrono field-setters
`with_year`, `with_month0`, `with_month`, `with_day` return `Some` exactly when
the reassembled date is a valid civil-calendar date, and are modelled as
`Option`-valued field updates guarded by the validity predicate.  A Rust panic
(`unwrap` / `expect` on `None`) is modelled as the whole operation returning
`none`.

The `i32` arithmetic of the source (`self.month0() as i32 + num_months`) is
modelled faithfully: the sum is reduced into the two's-complement range
`[-2^31, 2^31)` by `wrap32`, the truncating Rust `%` is `Int.tmod`, and the
`(x as f64 / 12f64).floor() as i32` round trip is modelled by exact rational
round-to-nearest-even at 53 significand bits (`fl53`) followed by `Int.floor`
and the saturating float-to-int cast (`satCast32`).
-/

structure Timestamp where
  year : Int
  month : Nat
  day : Nat
  payload : Nat
  deriving DecidableEq, Repr

/-- Leap year rule used by chrono's proleptic Gregorian calendar: divisible by
4, and if divisible by 100 then also divisible by 400. -/
def isLeapYear (y : Int) : Bool :=
  y % 4 = 0 && (y % 100 != 0 || y % 400 = 0)

/-- Number of days of a month (1-12) in a given year; 0 for an invalid month
number. -/
def daysInMonth (y : Int) (m : Nat) : Nat :=
  if m = 1 ∨ m = 3 ∨ m = 5 ∨ m = 7 ∨ m = 8 ∨ m = 10 ∨ m = 12 then 31
  else if m = 4 ∨ m = 6 ∨ m = 9 ∨ m = 11 then 30
  else if m = 2 then (if isLeapYear y then 29 else 28)
  else 0

/-- Validity of a calendar timestamp: month in 1-12 and day in the month's
range (the invariant chrono enforces when constructing dates). -/
def Valid (t : Timestamp) : Prop :=
  1 ≤ t.month ∧ t.month ≤ 12 ∧ 1 ≤ t.day ∧ t.day ≤ daysInMonth t.year t.month

instance (t : Timestamp) : Decidable (Valid t) := by
  unfold Valid; infer_instance

/-- Shared shape of the chrono field setters: the candidate timestamp is
returned when it is a valid date, otherwise `None`. -/
def checkValid (c : Timestamp) : Option Timestamp :=
  if Valid c then some c else none

/-- Model of chrono's `with_year` (year range modelled as unbounded, see the
file comment). -/
def withYear (t : Timestamp) (y : Int) : Option Timestamp :=
  checkValid { t with year := y }

/-- Model of chrono's `with_month0` (0-indexed month). -/
def withMonth0 (t : Timestamp) (m0 : Nat) : Option Timestamp :=
  checkValid { t with month := m0 + 1 }

/-- Model of chrono's `with_month` (1-indexed month). -/
def withMonth (t : Timestamp) (m : Nat) : Option Timestamp :=
  checkValid { t with month := m }

/-- Model of chrono's `with_day`. -/
def withDay (t : Timestamp) (d : Nat) : Option Timestamp :=
  checkValid { t with day := d }

/-- The source's `self.month0() as i32`: the 0-indexed month as an integer. -/
def month0Z (t : Timestamp) : Int := (t.month : Int) - 1

/-- Reduction of an integer into the two's-complement `i32` range
`[-2147483648, 2147483648)`, the effect of `i32` wrapping arithmetic. -/
def wrap32 (x : Int) : Int :=
  (x + 2147483648) % 4294967296 - 2147483648

/-- The saturating `f64`-to-`i32` cast applied to an integral float value. -/
def satCast32 (x : Int) : Int :=
  max (-2147483648) (min 2147483647 x)

/-- Round a rational to the nearest integer, ties to even (the IEEE-754
default rounding applied at integer granularity). -/
def rhe (x : ℚ) : ℤ :=
  if x - ⌊x⌋ < 1/2 then ⌊x⌋
  else if 1/2 < x - ⌊x⌋ then ⌊x⌋ + 1
  else if ⌊x⌋ % 2 = 0 then ⌊x⌋ else ⌊x⌋ + 1

/-- Exact model of IEEE-754 binary64 round-to-nearest-even for arguments in
the normal range (which covers every value arising in this development): the
argument is scaled so that its significand occupies 53 bits, rounded to an
integer with ties to even, and scaled back. -/
def fl53 (q : ℚ) : ℚ :=
  if q = 0 then 0
  else (rhe (q * 2 ^ (52 - Int.log 2 |q|)) : ℚ) * 2 ^ (Int.log 2 |q| - 52)

/-- The source line `let years_change = (abs_new_month as f64 / 12f64).floor() as i32;`:
the `i32`-to-`f64` conversion is exact for every `i32`, the division is
correctly rounded (`fl53`), `.floor()` is exact on binary64, and the final
cast saturates. -/
def yearsChange (a : Int) : Int :=
  satCast32 ⌊fl53 ((a : ℚ) / 12)⌋

/-- The source line `let actual_new_month = abs_new_month % 12 + { if abs_new_month >= 0 { 0 } else { 12 }};`
(`%` is Rust's truncating remainder, `Int.tmod`). -/
def actualNewMonth (a : Int) : Int :=
  a.tmod 12 + (if 0 ≤ a then 0 else 12)

/-- The source line `let abs_new_month = self.month0() as i32 + num_months;`
(an `i32` addition, hence the `wrap32`). -/
def absNewMonth (t : Timestamp) (n : Int) : Int :=
  wrap32 (month0Z t + n)

/-- The `add_months` of the crate root (`lib.rs`): set the year, then set the
month, with no day adjustment.  The `unwrap`/`expect` panics are modelled by
`Option.bind`. -/
def libAddMonths (t : Timestamp) (n : Int) : Option Timestamp :=
  let a := absNewMonth t n
  let yc := yearsChange a
  let m := actualNewMonth a
  (withYear t (t.year + yc)).bind fun t1 =>
    withMonth0 t1 m.toNat

/-- The `with_closest_day` of `month_calc.rs`: set the day, clamping it to the
last day of the receiver's month.  The leap-year test mirrors the source's
`self.with_day(1).unwrap().with_month(2).unwrap().with_day(29).is_some()`.
The `m => panic!` arm for an out-of-range month is modelled as `none`. -/
def withClosestDay (t : Timestamp) (day : Nat) : Option Timestamp :=
  let checkDay := if day > 31 then 31 else day
  match t.month - 1 with
  | 0 | 2 | 4 | 6 | 7 | 9 | 11 => withDay t checkDay
  | 3 | 5 | 8 | 10 => withDay t (if checkDay > 30 then 30 else checkDay)
  | 1 =>
    let isLeap := (((withDay t 1).bind fun u => withMonth u 2).bind fun u =>
      withDay u 29).isSome
    withDay t (if isLeap then (if checkDay ≥ 30 then 29 else checkDay)
               else (if checkDay ≥ 29 then 28 else checkDay))
  | _ => none

/-- The `add_months` of `month_calc.rs`: set the year, reset the day to 1, set
the month, then clamp back to the original timestamp's day (read from
`new_date_year`, the value whose only changed field is the year). -/
def mcAddMonths (t : Timestamp) (n : Int) : Option Timestamp :=
  let a := absNewMonth t n
  let yc := yearsChange a
  let m := actualNewMonth a
  (withYear t (t.year + yc)).bind fun newDateYear =>
    (withDay newDateYear 1).bind fun t1 =>
      (withMonth0 t1 m.toNat).bind fun t2 =>
        withClosestDay t2 newDateYear.day

/-- The helper `cmp_month_day` of `year_calc.rs`: 0 when `a`'s month/day has
reached `b`'s (month greater, or equal month with day greater or equal), -1
when it is strictly earlier. -/
def cmpMonthDay (a b : Timestamp) : Int :=
  if b.month < a.month then 0
  else if a.month < b.month then -1
  else if b.day ≤ a.day then 0 else -1

/-- The `years_since` of `year_calc.rs`.  Both arguments are modelled in the
canonical zero-offset (UTC) frame, so the source's `with_timezone(&Utc)`
normalization is the identity here. -/
def yearsSince (a b : Timestamp) : Int :=
  let baseYears := a.year - b.year
  if baseYears = 0 then 0
  else if 0 < baseYears then baseYears + cmpMonthDay a b
  else baseYears - cmpMonthDay a b

/-- Variant of `libAddMonths` with the float round trip replaced by exact
flooring division; proved equal to `libAddMonths` below and used for
computation and case analysis. -/
def libAddMonthsF (t : Timestamp) (n : Int) : Option Timestamp :=
  let a := absNewMonth t n
  let m := actualNewMonth a
  (withYear t (t.year + a.fdiv 12)).bind fun t1 =>
    withMonth0 t1 m.toNat

/-- Variant of `mcAddMonths` with the float round trip replaced by exact
flooring division; proved equal to `mcAddMonths` below. -/
def mcAddMonthsF (t : Timestamp) (n : Int) : Option Timestamp :=
  let a := absNewMonth t n
  let m := actualNewMonth a
  (withYear t (t.year + a.fdiv 12)).bind fun newDateYear =>
    (withDay newDateYear 1).bind fun t1 =>
      (withMonth0 t1 m.toNat).bind fun t2 =>
        withClosestDay t2 newDateYear.day

/-! ### Properties of the rounding model -/

theorem rhe_intCast (k : ℤ) : rhe (k : ℚ) = k := by
  unfold rhe
  norm_num

theorem abs_rhe_sub (x : ℚ) : |(rhe x : ℚ) - x| ≤ 1/2 := by
  have h1 : (⌊x⌋ : ℚ) ≤ x := Int.floor_le x
  have h2 : x < ⌊x⌋ + 1 := Int.lt_floor_add_one x
  unfold rhe
  split_ifs with ha hb hc <;> rw [abs_le] <;> constructor <;> push_cast <;> linarith

theorem fl53_intCast (k : ℤ) (hk : |k| ≤ 2 ^ 31) : fl53 (k : ℚ) = k := by
  rcases eq_or_ne k 0 with rfl | hk0
  · simp [fl53]
  have hq0 : (k : ℚ) ≠ 0 := Int.cast_ne_zero.mpr hk0
  have hqpos : (0 : ℚ) < |(k : ℚ)| := abs_pos.mpr hq0
  have hcast : |(k : ℚ)| ≤ (2 : ℚ) ^ (31 : ℤ) := by
    have h1 : ((|k| : ℤ) : ℚ) ≤ ((2 ^ 31 : ℤ) : ℚ) := by exact_mod_cast hk
    rw [Int.cast_abs] at h1
    calc |(k : ℚ)| ≤ ((2 ^ 31 : ℤ) : ℚ) := h1
    _ = (2 : ℚ) ^ (31 : ℤ) := by norm_num
  have hL : Int.log 2 |(k : ℚ)| ≤ 31 := by
    calc Int.log 2 |(k : ℚ)| ≤ Int.log 2 ((2 : ℚ) ^ (31 : ℤ)) :=
          Int.log_mono_right hqpos hcast
    _ = 31 := Int.log_zpow (by norm_num) 31
  set L : ℤ := Int.log 2 |(k : ℚ)| with hLdef
  obtain ⟨N, hN⟩ : ∃ N : ℕ, (52 - L : ℤ) = N :=
    ⟨(52 - L).toNat, (Int.toNat_of_nonneg (by omega)).symm⟩
  have hint : (k : ℚ) * 2 ^ ((N : ℤ)) = ((k * 2 ^ N : ℤ) : ℚ) := by
    rw [zpow_natCast]
    push_cast
    ring
  unfold fl53
  rw [if_neg hq0, ← hLdef, hN, hint, rhe_intCast]
  have hL52 : (L - 52 : ℤ) = -(N : ℤ) := by omega
  rw [hL52, zpow_neg, zpow_natCast]
  push_cast
  have h2N : ((2 : ℚ) ^ N) ≠ 0 := by positivity
  field_simp

theorem abs_fl53_sub (q : ℚ) (h : |q| ≤ 2 ^ 28) : |fl53 q - q| ≤ (2 : ℚ) ^ (-25 : ℤ) := by
  rcases eq_or_ne q 0 with rfl | hq0
  · rw [show fl53 0 = 0 from by unfold fl53; norm_num]
    norm_num
  have hqpos : (0 : ℚ) < |q| := abs_pos.mpr hq0
  have hcast : |q| ≤ (2 : ℚ) ^ (28 : ℤ) := by
    calc |q| ≤ (2 : ℚ) ^ (28 : ℕ) := h
    _ = (2 : ℚ) ^ (28 : ℤ) := by norm_num
  have hL : Int.log 2 |q| ≤ 28 := by
    calc Int.log 2 |q| ≤ Int.log 2 ((2 : ℚ) ^ (28 : ℤ)) := Int.log_mono_right hqpos hcast
    _ = 28 := Int.log_zpow (by norm_num) 28
  set L : ℤ := Int.log 2 |q| with hLdef
  have hq2 : q * 2 ^ (52 - L : ℤ) * 2 ^ (L - 52 : ℤ) = q := by
    rw [mul_assoc, ← zpow_add₀ (by norm_num : (2:ℚ) ≠ 0)]
    norm_num
  have hsplit : fl53 q - q =
      ((rhe (q * 2 ^ (52 - L : ℤ)) : ℚ) - q * 2 ^ (52 - L : ℤ)) * 2 ^ (L - 52 : ℤ) := by
    unfold fl53
    rw [if_neg hq0, ← hLdef, sub_mul, hq2]
  have hzpos : (0 : ℚ) < 2 ^ (L - 52 : ℤ) := zpow_pos (by norm_num) _
  have h53 : (1/2 : ℚ) * (2:ℚ) ^ (L - 52 : ℤ) = (2:ℚ) ^ (L - 53 : ℤ) := by
    rw [show (L - 52 : ℤ) = (L - 53) + 1 from by omega,
      zpow_add₀ (by norm_num : (2:ℚ) ≠ 0)]
    ring
  rw [hsplit, abs_mul, abs_of_pos hzpos]
  calc |(rhe (q * 2 ^ (52 - L : ℤ)) : ℚ) - q * 2 ^ (52 - L : ℤ)| * (2:ℚ) ^ (L - 52 : ℤ)
      ≤ (1/2) * (2:ℚ) ^ (L - 52 : ℤ) :=
        mul_le_mul_of_nonneg_right (abs_rhe_sub _) (le_of_lt hzpos)
    _ = (2:ℚ) ^ (L - 53 : ℤ) := h53
    _ ≤ (2:ℚ) ^ (-25 : ℤ) := zpow_le_zpow_right₀ (by norm_num) (by omega)

theorem floor_fl53_div_twelve (raw : ℤ) (h1 : -2147483648 ≤ raw)
    (h2 : raw < 2147483648) : ⌊fl53 ((raw : ℚ) / 12)⌋ = raw.fdiv 12 := by
  have hfd : raw.fdiv 12 = raw / 12 := Int.fdiv_eq_ediv raw (by norm_num)
  have hkey : 12 * (raw / 12) + raw % 12 = raw := Int.ediv_add_emod raw 12
  have hr0 : 0 ≤ raw % 12 := Int.emod_nonneg raw (by norm_num)
  have hr1 : raw % 12 < 12 := Int.emod_lt_of_pos raw (by norm_num)
  set d : ℤ := raw / 12 with hd
  set r : ℤ := raw % 12 with hr
  rcases eq_or_ne r 0 with hz | hnz
  · have hrw : (raw : ℚ) / 12 = (d : ℚ) := by
      have : (raw : ℚ) = 12 * (d : ℚ) := by exact_mod_cast (by omega : raw = 12 * d)
      rw [this]
      ring
    have habs : |d| ≤ 2 ^ 31 := by
      have h31 : (2 : ℤ) ^ 31 = 2147483648 := by norm_num
      rw [abs_le, h31]
      omega
    rw [hrw, fl53_intCast d habs, Int.floor_intCast, hfd]
  · have hrawabs : |(raw : ℚ)| ≤ 2147483648 := by
      rw [← Int.cast_abs]
      exact_mod_cast abs_le.mpr ⟨h1, le_of_lt h2⟩
    have hq28 : |(raw : ℚ) / 12| ≤ 2 ^ 28 := by
      rw [abs_div, show |(12 : ℚ)| = 12 from by norm_num, div_le_iff₀ (by norm_num : (0:ℚ) < 12)]
      linarith
    have herr := abs_fl53_sub ((raw : ℚ) / 12) hq28
    have heps : (2 : ℚ) ^ (-25 : ℤ) ≤ 1 / 24 := by
      rw [zpow_neg, show ((25 : ℤ) = (25 : ℕ)) from rfl, zpow_natCast]
      norm_num
    rw [abs_le] at herr
    have hql : (d : ℚ) + 1/12 ≤ (raw : ℚ) / 12 ∧ (raw : ℚ) / 12 ≤ (d : ℚ) + 11/12 := by
      have hcast : (raw : ℚ) = 12 * (d : ℚ) + (r : ℚ) := by exact_mod_cast (by omega : raw = 12 * d + r)
      have hrb : (1 : ℚ) ≤ (r : ℚ) ∧ (r : ℚ) ≤ 11 := by
        constructor <;> exact_mod_cast (by omega : _)
      rw [hcast]
      constructor <;> [linarith [hrb.1]; linarith [hrb.2]]
    have hfloor : ⌊fl53 ((raw : ℚ) / 12)⌋ = d := by
      rw [Int.floor_eq_iff]
      constructor
      · linarith [hql.1, herr.1, heps]
      · linarith [hql.2, herr.2, heps]
    rw [hfloor, hfd]

theorem yearsChange_eq_fdiv (a : ℤ) (h1 : -2147483648 ≤ a) (h2 : a < 2147483648) :
    yearsChange a = a.fdiv 12 := by
  unfold yearsChange satCast32
  rw [floor_fl53_div_twelve a h1 h2, Int.fdiv_eq_ediv a (by norm_num)]
  omega

theorem wrap32_bounds (x : ℤ) : -2147483648 ≤ wrap32 x ∧ wrap32 x < 2147483648 := by
  unfold wrap32
  omega

theorem wrap32_eq_self (x : ℤ) (h1 : -2147483648 ≤ x) (h2 : x < 2147483648) :
    wrap32 x = x := by
  unfold wrap32
  omega

theorem absNewMonth_bounds (t : Timestamp) (n : Int) :
    -2147483648 ≤ absNewMonth t n ∧ absNewMonth t n < 2147483648 := by
  unfold absNewMonth
  exact wrap32_bounds _

theorem libAddMonths_eqF (t : Timestamp) (n : Int) :
    libAddMonths t n = libAddMonthsF t n := by
  simp only [libAddMonths, libAddMonthsF]
  rw [yearsChange_eq_fdiv _ (absNewMonth_bounds t n).1 (absNewMonth_bounds t n).2]

theorem mcAddMonths_eqF (t : Timestamp) (n : Int) :
    mcAddMonths t n = mcAddMonthsF t n := by
  simp only [mcAddMonths, mcAddMonthsF]
  rw [yearsChange_eq_fdiv _ (absNewMonth_bounds t n).1 (absNewMonth_bounds t n).2]

/-! ### Structural helper lemmas -/

theorem checkValid_some {c u : Timestamp} (h : checkValid c = some u) :
    u = c ∧ Valid c := by
  by_cases hv : Valid c
  · unfold checkValid at h
    rw [if_pos hv] at h
    exact ⟨(Option.some.inj h).symm, hv⟩
  · unfold checkValid at h
    rw [if_neg hv] at h
    cases h

theorem checkValid_of_valid {c : Timestamp} (h : Valid c) : checkValid c = some c := by
  unfold checkValid
  rw [if_pos h]

theorem daysInMonth_le_31 (y : Int) (m : Nat) : daysInMonth y m ≤ 31 := by
  unfold daysInMonth
  split_ifs <;> omega

theorem daysInMonth_ge_28 (y : Int) (m : Nat) (h1 : 1 ≤ m) (h2 : m ≤ 12) :
    28 ≤ daysInMonth y m := by
  unfold daysInMonth
  split_ifs <;> omega

theorem daysInMonth_eq_31 (y : Int) (m : Nat)
    (h : m = 1 ∨ m = 3 ∨ m = 5 ∨ m = 7 ∨ m = 8 ∨ m = 10 ∨ m = 12) :
    daysInMonth y m = 31 := by
  unfold daysInMonth
  rw [if_pos h]

theorem daysInMonth_eq_30 (y : Int) (m : Nat) (h : m = 4 ∨ m = 6 ∨ m = 9 ∨ m = 11) :
    daysInMonth y m = 30 := by
  unfold daysInMonth
  rw [if_neg (by omega), if_pos h]

theorem daysInMonth_two (y : Int) :
    daysInMonth y 2 = if isLeapYear y then 29 else 28 := by
  unfold daysInMonth
  norm_num

theorem actualNewMonth_spec (a : ℤ) :
    actualNewMonth a = if a % 12 = 0 ∧ a < 0 then 12 else a % 12 := by
  unfold actualNewMonth
  rcases le_or_lt 0 a with ha | ha
  · rw [Int.tmod_eq_emod ha (by norm_num), if_pos ha]
    have h0 := Int.emod_nonneg a (show (12:ℤ) ≠ 0 by norm_num)
    split_ifs <;> omega
  · have h2 : a.tdiv 12 = -((-a).tdiv 12) := by
      rw [Int.neg_tdiv]
      ring
    have h3 : (-a).tdiv 12 = (-a) / 12 := Int.tdiv_eq_ediv (by omega) (by norm_num)
    have h1 : a.tmod 12 = a + 12 * ((-a) / 12) := by
      rw [Int.tmod_def, h2, h3]
      ring
    rw [h1, if_neg (by omega)]
    split_ifs <;> omega

theorem actualNewMonth_nonneg (a : ℤ) : 0 ≤ actualNewMonth a := by
  rw [actualNewMonth_spec]
  have := Int.emod_nonneg a (show (12:ℤ) ≠ 0 by norm_num)
  split_ifs <;> omega

theorem actualNewMonth_le_12 (a : ℤ) : actualNewMonth a ≤ 12 := by
  rw [actualNewMonth_spec]
  have := Int.emod_lt_of_pos a (show (0:ℤ) < 12 by norm_num)
  split_ifs <;> omega

theorem actualNewMonth_eq_emod {a : ℤ} (h : actualNewMonth a ≠ 12) :
    actualNewMonth a = a % 12 := by
  rw [actualNewMonth_spec] at h ⊢
  split_ifs at h ⊢ with hc
  · omega
  · rfl

theorem withDay_of_le (y : Int) (m dd p x : Nat) (hm1 : 1 ≤ m) (hm2 : m ≤ 12)
    (hx1 : 1 ≤ x) (hx2 : x ≤ daysInMonth y m) :
    withDay ⟨y, m, dd, p⟩ x = some ⟨y, m, x, p⟩ := by
  unfold withDay
  exact checkValid_of_valid ⟨hm1, hm2, hx1, hx2⟩

theorem leapCheck_eq (y : Int) (dd p : Nat) :
    (((withDay ⟨y, 2, dd, p⟩ 1).bind fun u => withMonth u 2).bind fun u =>
      withDay u 29).isSome = isLeapYear y := by
  have hdim : 1 ≤ daysInMonth y 2 := by
    rw [daysInMonth_two]
    split_ifs <;> norm_num
  have h1 : withDay ⟨y, 2, dd, p⟩ 1 = some ⟨y, 2, 1, p⟩ :=
    withDay_of_le y 2 dd p 1 (by norm_num) (by norm_num) (le_refl 1) hdim
  have h2 : withMonth ⟨y, 2, 1, p⟩ 2 = some ⟨y, 2, 1, p⟩ := by
    unfold withMonth
    exact checkValid_of_valid ⟨by norm_num, by norm_num, le_refl 1, hdim⟩
  rw [h1, Option.some_bind, h2, Option.some_bind]
  cases hL : isLeapYear y
  · have hdim : daysInMonth y 2 = 28 := by
      rw [daysInMonth_two, if_neg (by simp [hL])]
    unfold withDay checkValid
    rw [if_neg]
    · rfl
    · intro hv
      have hd := hv.2.2.2
      simp [hdim] at hd
  · have hdim : daysInMonth y 2 = 29 := by
      rw [daysInMonth_two, if_pos hL]
    unfold withDay checkValid
    rw [if_pos ⟨by norm_num, by norm_num, by norm_num, by simp [hdim]⟩]
    rfl

theorem withClosestDay_eq (y : Int) (m dd d p : Nat) (hm1 : 1 ≤ m) (hm2 : m ≤ 12)
    (hd1 : 1 ≤ d) (hd2 : d ≤ 31) :
    withClosestDay ⟨y, m, dd, p⟩ d = some ⟨y, m, min d (daysInMonth y m), p⟩ := by
  have h31 : ∀ mm : Nat, mm = 1 ∨ mm = 3 ∨ mm = 5 ∨ mm = 7 ∨ mm = 8 ∨ mm = 10 ∨ mm = 12 →
      withClosestDay ⟨y, mm, dd, p⟩ d = withDay ⟨y, mm, dd, p⟩ (if d > 31 then 31 else d) → 
      withClosestDay ⟨y, mm, dd, p⟩ d = some ⟨y, mm, min d (daysInMonth y mm), p⟩ := by
    intro mm hmm hred
    rw [hred, show (if d > 31 then 31 else d) = min d (daysInMonth y mm) from by
      rw [daysInMonth_eq_31 y mm hmm]; split_ifs <;> omega]
    exact withDay_of_le y mm dd p _ (by omega) (by omega) (by
      rw [daysInMonth_eq_31 y mm hmm]; omega) (by omega)
  have h30 : ∀ mm : Nat, mm = 4 ∨ mm = 6 ∨ mm = 9 ∨ mm = 11 →
      withClosestDay ⟨y, mm, dd, p⟩ d =
        withDay ⟨y, mm, dd, p⟩ (if (if d > 31 then 31 else d) > 30 then 30
          else (if d > 31 then 31 else d)) →
      withClosestDay ⟨y, mm, dd, p⟩ d = some ⟨y, mm, min d (daysInMonth y mm), p⟩ := by
    intro mm hmm hred
    rw [hred, show (if (if d > 31 then 31 else d) > 30 then 30
        else (if d > 31 then 31 else d)) = min d (daysInMonth y mm) from by
      rw [daysInMonth_eq_30 y mm hmm]; split_ifs <;> omega]
    exact withDay_of_le y mm dd p _ (by omega) (by omega) (by
      rw [daysInMonth_eq_30 y mm hmm]; omega) (by
      rw [daysInMonth_eq_30 y mm hmm]; omega)
  interval_cases m
  · exact h31 1 (by norm_num) rfl
  · rw [show withClosestDay ⟨y, 2, dd, p⟩ d =
        withDay ⟨y, 2, dd, p⟩
          (if (((withDay ⟨y, 2, dd, p⟩ 1).bind fun u => withMonth u 2).bind fun u =>
              withDay u 29).isSome
           then (if (if d > 31 then 31 else d) ≥ 30 then 29 else (if d > 31 then 31 else d))
           else (if (if d > 31 then 31 else d) ≥ 29 then 28 else (if d > 31 then 31 else d)))
      from rfl, leapCheck_eq]
    cases hL : isLeapYear y
    · have hdim : daysInMonth y 2 = 28 := by
        rw [daysInMonth_two, if_neg (by simp [hL])]
      rw [if_neg (by simp), show (if (if d > 31 then 31 else d) ≥ 29 then 28
          else (if d > 31 then 31 else d)) = min d (daysInMonth y 2) from by
        rw [hdim]; split_ifs <;> omega]
      exact withDay_of_le y 2 dd p _ (by norm_num) (by norm_num) (by
        rw [hdim]; omega) (by omega)
    · have hdim : daysInMonth y 2 = 29 := by
        rw [daysInMonth_two, if_pos hL]
      rw [if_pos rfl, show (if (if d > 31 then 31 else d) ≥ 30 then 29
          else (if d > 31 then 31 else d)) = min d (daysInMonth y 2) from by
        rw [hdim]; split_ifs <;> omega]
      exact withDay_of_le y 2 dd p _ (by norm_num) (by norm_num) (by
        rw [hdim]; omega) (by omega)
  · exact h31 3 (by norm_num) rfl
  · exact h30 4 (by norm_num) rfl
  · exact h31 5 (by norm_num) rfl
  · exact h30 6 (by norm_num) rfl
  · exact h31 7 (by norm_num) rfl
  · exact h31 8 (by norm_num) rfl
  · exact h30 9 (by norm_num) rfl
  · exact h31 10 (by norm_num) rfl
  · exact h30 11 (by norm_num) rfl
  · exact h31 12 (by norm_num) rfl

theorem libF_some_inv {t u : Timestamp} {n : ℤ} (h : libAddMonthsF t n = some u) :
    u = { year := t.year + (absNewMonth t n).fdiv 12,
          month := (actualNewMonth (absNewMonth t n)).toNat + 1,
          day := t.day, payload := t.payload } ∧
    Valid { t with year := t.year + (absNewMonth t n).fdiv 12 } ∧ Valid u := by
  simp only [libAddMonthsF, Option.bind_eq_some] at h
  obtain ⟨t1, hY, h2⟩ := h
  unfold withYear at hY
  obtain ⟨rfl, hvY⟩ := checkValid_some hY
  unfold withMonth0 at h2
  obtain ⟨rfl, hv2⟩ := checkValid_some h2
  exact ⟨rfl, hvY, hv2⟩

theorem mcF_some_inv {t u : Timestamp} {n : ℤ} (h : mcAddMonthsF t n = some u) :
    (actualNewMonth (absNewMonth t n)).toNat + 1 ≤ 12 ∧
    Valid { t with year := t.year + (absNewMonth t n).fdiv 12 } ∧
    u = { year := t.year + (absNewMonth t n).fdiv 12,
          month := (actualNewMonth (absNewMonth t n)).toNat + 1,
          day := min t.day (daysInMonth (t.year + (absNewMonth t n).fdiv 12)
            ((actualNewMonth (absNewMonth t n)).toNat + 1)),
          payload := t.payload } := by
  simp only [mcAddMonthsF, Option.bind_eq_some] at h
  obtain ⟨ndy, hY, t1, h1, t2, h2, h3⟩ := h
  unfold withYear at hY
  obtain ⟨rfl, hvY⟩ := checkValid_some hY
  unfold withDay at h1
  obtain ⟨rfl, hv1⟩ := checkValid_some h1
  unfold withMonth0 at h2
  obtain ⟨rfl, hv2⟩ := checkValid_some h2
  have hvY' : 1 ≤ t.month ∧ t.month ≤ 12 ∧ 1 ≤ t.day ∧
      t.day ≤ daysInMonth (t.year + (absNewMonth t n).fdiv 12) t.month := hvY
  have hv2' : 1 ≤ (actualNewMonth (absNewMonth t n)).toNat + 1 ∧
      (actualNewMonth (absNewMonth t n)).toNat + 1 ≤ 12 ∧ True ∧ True :=
    ⟨hv2.1, hv2.2.1, trivial, trivial⟩
  have h3' : withClosestDay
      ⟨t.year + (absNewMonth t n).fdiv 12, (actualNewMonth (absNewMonth t n)).toNat + 1,
        1, t.payload⟩ t.day = some u := h3
  rw [withClosestDay_eq _ _ 1 t.day _ (by omega) hv2'.2.1 hvY'.2.2.1
    (le_trans hvY'.2.2.2 (daysInMonth_le_31 _ _))] at h3'
  exact ⟨hv2'.2.1, hvY, (Option.some.inj h3').symm⟩

theorem mcF_of_libF {t u : Timestamp} {n : ℤ} (h : libAddMonthsF t n = some u) :
    mcAddMonthsF t n = some u := by
  obtain ⟨rfl, hvY, hvu⟩ := libF_some_inv h
  have hvY' : 1 ≤ t.month ∧ t.month ≤ 12 ∧ 1 ≤ t.day ∧
      t.day ≤ daysInMonth (t.year + (absNewMonth t n).fdiv 12) t.month := hvY
  have hvu' : 1 ≤ (actualNewMonth (absNewMonth t n)).toNat + 1 ∧
      (actualNewMonth (absNewMonth t n)).toNat + 1 ≤ 12 ∧ 1 ≤ t.day ∧
      t.day ≤ daysInMonth (t.year + (absNewMonth t n).fdiv 12)
        ((actualNewMonth (absNewMonth t n)).toNat + 1) := hvu
  simp only [mcAddMonthsF]
  rw [show withYear t (t.year + (absNewMonth t n).fdiv 12) =
      some { t with year := t.year + (absNewMonth t n).fdiv 12 } from
    checkValid_of_valid hvY, Option.some_bind]
  rw [show withDay { t with year := t.year + (absNewMonth t n).fdiv 12 } 1 =
      some ⟨t.year + (absNewMonth t n).fdiv 12, t.month, 1, t.payload⟩ from
    withDay_of_le _ _ _ _ 1 hvY'.1 hvY'.2.1 (le_refl 1)
      (le_trans (by omega) (daysInMonth_ge_28 _ _ hvY'.1 hvY'.2.1)), Option.some_bind]
  rw [show withMonth0 ⟨t.year + (absNewMonth t n).fdiv 12, t.month, 1, t.payload⟩
      (actualNewMonth (absNewMonth t n)).toNat =
      some ⟨t.year + (absNewMonth t n).fdiv 12,
        (actualNewMonth (absNewMonth t n)).toNat + 1, 1, t.payload⟩ from
    checkValid_of_valid ⟨hvu'.1, hvu'.2.1, le_refl 1, by
      show (1 : ℕ) ≤ daysInMonth _ _
      exact le_trans (by norm_num) (daysInMonth_ge_28 _ _ hvu'.1 hvu'.2.1)⟩,
    Option.some_bind]
  rw [show ({ t with year := t.year + (absNewMonth t n).fdiv 12 } : Timestamp).day
      = t.day from rfl]
  rw [withClosestDay_eq _ _ 1 t.day _ hvu'.1 hvu'.2.1 hvY'.2.2.1
    (le_trans hvY'.2.2.2 (daysInMonth_le_31 _ _))]
  rw [min_eq_left hvu'.2.2.2]

theorem addMonths_zero_aux {t : Timestamp} (hv : Valid t) :
    libAddMonthsF t 0 = some t ∧ mcAddMonthsF t 0 = some t := by
  have hv' : 1 ≤ t.month ∧ t.month ≤ 12 ∧ 1 ≤ t.day ∧
      t.day ≤ daysInMonth t.year t.month := hv
  have ha : absNewMonth t 0 = month0Z t := by
    unfold absNewMonth
    rw [add_zero]
    exact wrap32_eq_self _ (by unfold month0Z; omega) (by unfold month0Z; omega)
  have hfd : (month0Z t).fdiv 12 = 0 := by
    rw [Int.fdiv_eq_ediv _ (by norm_num)]
    unfold month0Z
    omega
  have hm : (actualNewMonth (month0Z t)).toNat + 1 = t.month := by
    rw [actualNewMonth_spec, if_neg (by unfold month0Z; omega)]
    unfold month0Z
    omega
  have hYt : withYear t (t.year + 0) = some t := by
    rw [add_zero]
    exact checkValid_of_valid hv
  constructor
  · simp only [libAddMonthsF, ha, hfd]
    rw [hYt, Option.some_bind]
    show checkValid { t with month := (actualNewMonth (month0Z t)).toNat + 1 } = some t
    rw [hm]
    exact checkValid_of_valid hv
  · simp only [mcAddMonthsF, ha, hfd]
    rw [hYt, Option.some_bind]
    rw [show withDay t 1 = some ⟨t.year, t.month, 1, t.payload⟩ from
      withDay_of_le _ _ _ _ 1 hv'.1 hv'.2.1 (le_refl 1)
        (le_trans (by omega) (daysInMonth_ge_28 _ _ hv'.1 hv'.2.1)), Option.some_bind]
    rw [show withMonth0 ⟨t.year, t.month, 1, t.payload⟩ (actualNewMonth (month0Z t)).toNat =
        some ⟨t.year, t.month, 1, t.payload⟩ from by
      unfold withMonth0
      rw [show ({ (⟨t.year, t.month, 1, t.payload⟩ : Timestamp) with
          month := (actualNewMonth (month0Z t)).toNat + 1 } : Timestamp) =
        ⟨t.year, t.month, 1, t.payload⟩ from by rw [hm]]
      exact checkValid_of_valid ⟨hv'.1, hv'.2.1, le_refl 1, by
        show (1 : ℕ) ≤ daysInMonth _ _
        exact le_trans (by norm_num) (daysInMonth_ge_28 _ _ hv'.1 hv'.2.1)⟩,
      Option.some_bind]
    rw [withClosestDay_eq _ _ 1 t.day _ hv'.1 hv'.2.1 hv'.2.2.1
      (le_trans hv'.2.2.2 (daysInMonth_le_31 _ _)), min_eq_left hv'.2.2.2]

/-! ### Claim theorems: the year difference calculator -/

/-- C5: `years_since` applied to the UTC timestamps 2018-03-15 and 2030-03-11
returns -12, and applied to 2018-03-15 and 2030-03-21 returns -11. -/
theorem yearsSince_scenarios_2030 :
    yearsSince ⟨2018, 3, 15, 0⟩ ⟨2030, 3, 11, 0⟩ = -12 ∧
    yearsSince ⟨2018, 3, 15, 0⟩ ⟨2030, 3, 21, 0⟩ = -11 := by
  decide

/-- C4 (counterexample): the claim predicts that for `year(a) < year(b)` with
a's month/day strictly earlier than b's (here equal month 3, day 15 < 21, the
claim's "otherwise" case), the result is `base = 2018 - 2030 = -12` unchanged;
the code instead returns -11 = base + 1 (it adds 1 exactly in the *earlier*
case, the reverse of the claim's condition). -/
theorem yearsSince_neg_base_counterexample :
    yearsSince ⟨2018, 3, 15, 0⟩ ⟨2030, 3, 21, 0⟩ = -11 ∧
    yearsSince ⟨2018, 3, 15, 0⟩ ⟨2030, 3, 21, 0⟩ ≠ 2018 - 2030 := by
  decide

/-- C4 (amended): for all timestamps with `year(a) < year(b)` (so
`base = year(a) - year(b) < 0`), `years_since(a, b)` equals `base + 1` when
a's month/day is strictly *earlier* in the calendar than b's (month less, or
equal month with day strictly less), and equals `base` unchanged otherwise. -/
theorem yearsSince_neg_base (a b : Timestamp) (h : a.year < b.year) :
    yearsSince a b = (a.year - b.year) +
      (if a.month < b.month ∨ (a.month = b.month ∧ a.day < b.day) then 1 else 0) := by
  simp only [yearsSince, cmpMonthDay]
  rw [if_neg (by omega : ¬ (a.year - b.year = 0)),
    if_neg (by omega : ¬ (0 < a.year - b.year))]
  split_ifs <;> omega

/-- C4 (witness): the amended claim evaluated at 2018-03-15 against
2030-03-21. -/
theorem yearsSince_neg_base_witness :
    (2018 : Int) < 2030 ∧
    yearsSince ⟨2018, 3, 15, 0⟩ ⟨2030, 3, 21, 0⟩ = (2018 - 2030) + 1 := by
  refine ⟨by norm_num, ?_⟩
  have h := yearsSince_neg_base ⟨2018, 3, 15, 0⟩ ⟨2030, 3, 21, 0⟩ (by norm_num)
  rw [h, if_pos (Or.inr ⟨rfl, by norm_num⟩)]

/-- C6: when the two years are equal, `years_since` returns 0 unconditionally;
when `base = year(a) - year(b) > 0`, it returns `base - 1` when a's month/day
position is strictly earlier than b's (month less, or equal month with day
strictly less) and `base` otherwise, so an exact month/day match counts as a
full year. -/
theorem yearsSince_zero_and_pos_base (a b : Timestamp) :
    (a.year = b.year → yearsSince a b = 0) ∧
    (b.year < a.year → yearsSince a b = (a.year - b.year) -
      (if a.month < b.month ∨ (a.month = b.month ∧ a.day < b.day) then 1 else 0)) := by
  constructor
  · intro h
    simp only [yearsSince]
    rw [if_pos (by omega)]
  · intro h
    simp only [yearsSince, cmpMonthDay]
    rw [if_neg (by omega : ¬ (a.year - b.year = 0)), if_pos (by omega)]
    split_ifs <;> omega

/-- C6 (witness): the same-year case at 2018-03-15 vs 2018-06-15 and the
positive-base case at 2018-03-15 vs 2010-05-11. -/
theorem yearsSince_zero_and_pos_base_witness :
    yearsSince ⟨2018, 3, 15, 0⟩ ⟨2018, 6, 15, 0⟩ = 0 ∧
    yearsSince ⟨2018, 3, 15, 0⟩ ⟨2010, 5, 11, 0⟩ = (2018 - 2010) - 1 := by
  constructor
  · exact (yearsSince_zero_and_pos_base _ _).1 rfl
  · have h := (yearsSince_zero_and_pos_base ⟨2018, 3, 15, 0⟩ ⟨2010, 5, 11, 0⟩).2
      (by norm_num)
    rw [h, if_pos (Or.inl (by norm_num))]

/-! ### Claim theorems: the month shifter -/

/-- C1 (code evaluation at the failing input): for the valid timestamp
2018-01-15 and n = -12 the shared month computation yields
`(-12 % 12) + 12 = 12`, `with_month0(12)` rejects it, and both `add_months`
implementations hit the `expect` marked "This means there is a very bad bug
in the calculations!" (modelled as `none`); the claim and the spec say the
operation succeeds for every valid timestamp and every i32 offset. -/
theorem addMonths_panic_eval :
    Valid ⟨2018, 1, 15, 0⟩ ∧
    mcAddMonths ⟨2018, 1, 15, 0⟩ (-12) = none ∧
    libAddMonths ⟨2018, 1, 15, 0⟩ (-12) = none := by
  refine ⟨by decide, ?_, ?_⟩
  · rw [mcAddMonths_eqF]
    decide
  · rw [libAddMonths_eqF]
    decide

/-- C3 (code evaluation at the failing input): at month0 = 0 (January,
2018-01-15) and n = -12 the computed zero-indexed destination month is
`(-12 % 12) + 12 = 12`, which is outside `[0, 12)` and differs from the
mathematical `(month0 + n) mod 12 = 0`; the subsequent `with_month0(12)`
panics. -/
theorem actualNewMonth_escapes_range_eval :
    actualNewMonth (absNewMonth ⟨2018, 1, 15, 0⟩ (-12)) = 12 ∧
    (month0Z ⟨2018, 1, 15, 0⟩ + (-12)) % 12 = 0 ∧ ¬ ((12 : Int) < 12) := by
  decide

/-- C9: adding zero months is the identity on every valid timestamp for both
implementations: year, month, day and the opaque sub-day payload are all
unchanged. -/
theorem addMonths_zero_id (t : Timestamp) (hv : Valid t) :
    libAddMonths t 0 = some t ∧ mcAddMonths t 0 = some t := by
  rw [libAddMonths_eqF, mcAddMonths_eqF]
  exact addMonths_zero_aux hv

/-- C9 (witness): the zero shift at 2018-03-15. -/
theorem addMonths_zero_id_witness :
    Valid ⟨2018, 3, 15, 0⟩ ∧
    libAddMonths ⟨2018, 3, 15, 0⟩ 0 = some ⟨2018, 3, 15, 0⟩ ∧
    mcAddMonths ⟨2018, 3, 15, 0⟩ 0 = some ⟨2018, 3, 15, 0⟩ :=
  ⟨by decide, (addMonths_zero_id ⟨2018, 3, 15, 0⟩ (by decide)).1,
    (addMonths_zero_id ⟨2018, 3, 15, 0⟩ (by decide)).2⟩

/-- C2 (counterexample): at the valid timestamp 2018-01-15 with n = -12 the
clamping `add_months` returns no timestamp at all (the month normalization
produces 12 and the construction panics), so the universally quantified
equation about "the day of add_months(t, n)" has no witness day there. -/
theorem mc_day_claim_counterexample :
    Valid ⟨2018, 1, 15, 0⟩ ∧
    (mcAddMonths ⟨2018, 1, 15, 0⟩ (-12)).map Timestamp.day = none := by
  refine ⟨by decide, ?_⟩
  rw [mcAddMonths_eqF]
  decide

/-- C2 (amended): whenever the clamping `add_months` of `month_calc.rs`
returns a timestamp, its day equals `min(day(t), max_valid_day)` where
`max_valid_day = daysInMonth` of the returned (destination) year and month —
31 for Jan/Mar/May/Jul/Aug/Oct/Dec, 30 for Apr/Jun/Sep/Nov, 29/28 for
February by the destination year's leap status — and the day being clamped is
the original timestamp's day, not one read from a partially updated
intermediate. -/
theorem mc_day_clamp (t u : Timestamp) (n : Int) (hu : mcAddMonths t n = some u) :
    u.day = min t.day (daysInMonth u.year u.month) := by
  rw [mcAddMonths_eqF] at hu
  obtain ⟨-, -, rfl⟩ := mcF_some_inv hu
  rfl

/-- C2 (witness): shifting 2017-01-31 by one month clamps the day to
`min 31 (daysInMonth 2017 2) = 28`. -/
theorem mc_day_clamp_witness :
    mcAddMonths ⟨2017, 1, 31, 0⟩ 1 = some ⟨2017, 2, 28, 0⟩ ∧
    (28 : Nat) = min 31 (daysInMonth 2017 2) := by
  have hmc : mcAddMonths ⟨2017, 1, 31, 0⟩ 1 = some ⟨2017, 2, 28, 0⟩ := by
    rw [mcAddMonths_eqF]
    decide
  refine ⟨hmc, ?_⟩
  have h := mc_day_clamp ⟨2017, 1, 31, 0⟩ ⟨2017, 2, 28, 0⟩ 1 hmc
  simpa using h

/-- C10 (counterexample): at 2017-01-31 with n = 1 the crate-root
`add_months` fails (day 31 is invalid in February and `lib.rs` never clamps),
while the `month_calc.rs` version succeeds with the clamped day 28: the two
implementations do not succeed on the same inputs. -/
theorem lib_mc_not_equivalent :
    libAddMonths ⟨2017, 1, 31, 0⟩ 1 = none ∧
    mcAddMonths ⟨2017, 1, 31, 0⟩ 1 = some ⟨2017, 2, 28, 0⟩ := by
  constructor
  · rw [libAddMonths_eqF]
    decide
  · rw [mcAddMonths_eqF]
    decide

/-- C10 (amended): the `month_calc.rs` implementation refines the crate-root
one: whenever the crate-root `add_months` succeeds, the `month_calc.rs`
version succeeds with the identical timestamp.  The converse fails, because
the crate-root version additionally requires the original day to be valid in
the destination month. -/
theorem mc_refines_lib (t u : Timestamp) (n : Int) (h : libAddMonths t n = some u) :
    mcAddMonths t n = some u := by
  rw [libAddMonths_eqF] at h
  rw [mcAddMonths_eqF]
  exact mcF_of_libF h

/-- C10 (witness): both implementations map 2018-03-15 plus 23 months to
2020-02-15. -/
theorem mc_refines_lib_witness :
    libAddMonths ⟨2018, 3, 15, 0⟩ 23 = some ⟨2020, 2, 15, 0⟩ ∧
    mcAddMonths ⟨2018, 3, 15, 0⟩ 23 = some ⟨2020, 2, 15, 0⟩ := by
  have hlib : libAddMonths ⟨2018, 3, 15, 0⟩ 23 = some ⟨2020, 2, 15, 0⟩ := by
    rw [libAddMonths_eqF]
    decide
  exact ⟨hlib, mc_refines_lib _ _ _ hlib⟩

/-- C7 (counterexample): at the valid timestamp 2018-02-15 (month0 = 1) with
n = 2147483647 the `i32` sum `month0 + n` wraps to -2147483648, so the
returned year is `2018 + fdiv(-2147483648, 12) = -178954953` instead of the
claimed `2018 + floor((1 + 2147483647)/12) = 178958988`. -/
theorem year_formula_overflow_counterexample :
    Valid ⟨2018, 2, 15, 0⟩ ∧
    (mcAddMonths ⟨2018, 2, 15, 0⟩ 2147483647).map Timestamp.year =
      some (-178954953) ∧
    2018 + (month0Z ⟨2018, 2, 15, 0⟩ + 2147483647).fdiv 12 = 178958988 := by
  refine ⟨by decide, ?_, by decide⟩
  rw [mcAddMonths_eqF]
  decide

/-- C7 (amended): the float round trip `(raw as f64 / 12f64).floor() as i32`
of the source computes exactly the mathematical floor division
`fdiv raw 12` for every `i32` value `raw` (so `raw = -1` gives -1, not 0);
consequently, whenever `month0(t) + n` stays inside the `i32` range, any
timestamp returned by either `add_months` implementation has year
`year(t) + fdiv(month0(t) + n, 12)`. -/
theorem year_eq_floor_div :
    (∀ raw : ℤ, -2147483648 ≤ raw → raw < 2147483648 →
      yearsChange raw = raw.fdiv 12) ∧
    (∀ t u : Timestamp, ∀ n : ℤ, -2147483648 ≤ month0Z t + n →
      month0Z t + n < 2147483648 → mcAddMonths t n = some u →
      u.year = t.year + (month0Z t + n).fdiv 12) ∧
    (∀ t u : Timestamp, ∀ n : ℤ, -2147483648 ≤ month0Z t + n →
      month0Z t + n < 2147483648 → libAddMonths t n = some u →
      u.year = t.year + (month0Z t + n).fdiv 12) := by
  refine ⟨yearsChange_eq_fdiv, ?_, ?_⟩
  · intro t u n h1 h2 hu
    rw [mcAddMonths_eqF] at hu
    obtain ⟨-, -, rfl⟩ := mcF_some_inv hu
    show t.year + (absNewMonth t n).fdiv 12 = _
    rw [show absNewMonth t n = month0Z t + n from by
      unfold absNewMonth
      exact wrap32_eq_self _ h1 h2]
  · intro t u n h1 h2 hu
    rw [libAddMonths_eqF] at hu
    obtain ⟨rfl, -, -⟩ := libF_some_inv hu
    show t.year + (absNewMonth t n).fdiv 12 = _
    rw [show absNewMonth t n = month0Z t + n from by
      unfold absNewMonth
      exact wrap32_eq_self _ h1 h2]

/-- C7 (witness): the float model at raw = -1 gives -1 (mathematical floor,
not truncation), and the year of 2018-03-15 shifted by -23 months is
2018 + fdiv(2 - 23, 12) = 2016. -/
theorem year_eq_floor_div_witness :
    yearsChange (-1) = Int.fdiv (-1) 12 ∧ Int.fdiv (-1) 12 = -1 ∧
    (mcAddMonths ⟨2018, 3, 15, 0⟩ (-23)).map Timestamp.year =
      some (2018 + (month0Z ⟨2018, 3, 15, 0⟩ + (-23)).fdiv 12) := by
  refine ⟨year_eq_floor_div.1 (-1) (by norm_num) (by norm_num), by decide, ?_⟩
  have hmc : mcAddMonths ⟨2018, 3, 15, 0⟩ (-23) = some ⟨2016, 4, 15, 0⟩ := by
    rw [mcAddMonths_eqF]
    decide
  have h := year_eq_floor_div.2.1 ⟨2018, 3, 15, 0⟩ ⟨2016, 4, 15, 0⟩ (-23)
    (by decide) (by decide) hmc
  rw [hmc]
  exact congrArg some h

/-- C8 (counterexample): t = 2018-01-15 with n = 12 satisfies the claim's day
precondition (day 15 is valid in January before and after the round trip),
and the first shift succeeds with 2019-01-15; but the reverse shift by -12
hits the month normalization bug (month0 + offset = -12 yields month0 = 12)
and panics, so the round trip produces no timestamp at all. -/
theorem roundtrip_counterexample :
    mcAddMonths ⟨2018, 1, 15, 0⟩ 12 = some ⟨2019, 1, 15, 0⟩ ∧
    mcAddMonths ⟨2019, 1, 15, 0⟩ (-12) = none := by
  constructor <;> · rw [mcAddMonths_eqF]; decide

/-- C8 (amended): whenever both applications of the clamping `add_months`
succeed (and the month0 + offset sums stay inside the `i32` range), the round
trip `add_months(add_months(t, n), -n)` returns a timestamp with the same
month and year as `t` (the day may still differ because clamping is lossy). -/
theorem roundtrip_month_year (t u v : Timestamp) (n : Int)
    (hb1 : -2147483648 ≤ month0Z t + n) (hb2 : month0Z t + n < 2147483648)
    (hb3 : -2147483648 ≤ month0Z u - n) (hb4 : month0Z u - n < 2147483648)
    (h1 : mcAddMonths t n = some u) (h2 : mcAddMonths u (-n) = some v) :
    v.month = t.month ∧ v.year = t.year := by
  rw [mcAddMonths_eqF] at h1 h2
  obtain ⟨hm1, hvY1, hu⟩ := mcF_some_inv h1
  obtain ⟨hm2, hvY2, hv⟩ := mcF_some_inv h2
  have hvY1' : 1 ≤ t.month ∧ t.month ≤ 12 ∧ 1 ≤ t.day ∧
      t.day ≤ daysInMonth (t.year + (absNewMonth t n).fdiv 12) t.month := hvY1
  have ha1 : absNewMonth t n = month0Z t + n := by
    unfold absNewMonth
    exact wrap32_eq_self _ hb1 hb2
  have ha2 : absNewMonth u (-n) = month0Z u - n := by
    unfold absNewMonth
    rw [show month0Z u + (-n) = month0Z u - n from by ring]
    exact wrap32_eq_self _ hb3 hb4
  have hM1nn := actualNewMonth_nonneg (absNewMonth t n)
  have hM2nn := actualNewMonth_nonneg (absNewMonth u (-n))
  have hM1 : actualNewMonth (absNewMonth t n) = (absNewMonth t n) % 12 :=
    actualNewMonth_eq_emod (by omega)
  have hM2 : actualNewMonth (absNewMonth u (-n)) = (absNewMonth u (-n)) % 12 :=
    actualNewMonth_eq_emod (by omega)
  have hum : month0Z u = actualNewMonth (absNewMonth t n) := by
    rw [hu]
    unfold month0Z
    dsimp only
    omega
  have huy : u.year = t.year + (absNewMonth t n).fdiv 12 := by rw [hu]
  have hvm : (v.month : Int) = actualNewMonth (absNewMonth u (-n)) + 1 := by
    rw [hv]
    dsimp only
    omega
  have hvy : v.year = u.year + (absNewMonth u (-n)).fdiv 12 := by rw [hv]
  have hf1 : (absNewMonth t n).fdiv 12 = (absNewMonth t n) / 12 :=
    Int.fdiv_eq_ediv _ (by norm_num)
  have hf2 : (absNewMonth u (-n)).fdiv 12 = (absNewMonth u (-n)) / 12 :=
    Int.fdiv_eq_ediv _ (by norm_num)
  have hkey : absNewMonth u (-n) = (absNewMonth t n) % 12 - n := by
    rw [ha2, hum, hM1]
  have hm0t : month0Z t = (t.month : Int) - 1 := rfl
  constructor
  · have hcast : (v.month : Int) = (t.month : Int) := by
      rw [hvm, hM2, hkey, ha1, hm0t]
      have hmb := hvY1'.1
      have hmb2 := hvY1'.2.1
      omega
    exact_mod_cast hcast
  · rw [hvy, huy, hf1, hf2, hkey, ha1, hm0t]
    have hmb := hvY1'.1
    have hmb2 := hvY1'.2.1
    omega

/-- C8 (witness): 2017-03-31 shifted by +1 month gives 2017-04-30; shifting
back by -1 gives 2017-03-30, which has the original month and year (the day
is lost to clamping, as the claim allows). -/
theorem roundtrip_month_year_witness :
    mcAddMonths ⟨2017, 3, 31, 0⟩ 1 = some ⟨2017, 4, 30, 0⟩ ∧
    mcAddMonths ⟨2017, 4, 30, 0⟩ (-1) = some ⟨2017, 3, 30, 0⟩ ∧
    (⟨2017, 3, 30, 0⟩ : Timestamp).month = (⟨2017, 3, 31, 0⟩ : Timestamp).month ∧
    (⟨2017, 3, 30, 0⟩ : Timestamp).year = (⟨2017, 3, 31, 0⟩ : Timestamp).year := by
  have hA : mcAddMonths ⟨2017, 3, 31, 0⟩ 1 = some ⟨2017, 4, 30, 0⟩ := by
    rw [mcAddMonths_eqF]
    decide
  have hB : mcAddMonths ⟨2017, 4, 30, 0⟩ (-1) = some ⟨2017, 3, 30, 0⟩ := by
    rw [mcAddMonths_eqF]
    decide
  exact ⟨hA, hB, roundtrip_month_year ⟨2017, 3, 31, 0⟩ ⟨2017, 4, 30, 0⟩
    ⟨2017, 3, 30, 0⟩ 1 (by decide) (by decide) (by decide) (by decide) hA hB⟩
